import Mathlib

/-!
Verification of the serverless image-resizer pipeline (`src/lambda_function.py`).

The development shallowly embeds the handler: the imaging library's bounded
resize (`img.thumbnail((300, 300))`) is modelled exactly over `ℚ` (real
arithmetic idealisation of the library's float arithmetic), the JPEG encoder's
mode restriction is modelled from the library's raw-mode table, and the AWS
clients (S3 get/put, DynamoDB put_item), the UUID source and the UTC clock are
modelled as an explicit world state threaded through the per-record loop.
-/

namespace ImageResizer

/-- A decoded raster image as the imaging library exposes it: pixel dimensions
and a color mode string (for example "RGB", "RGBA", "L", "P"). -/
structure PILImage where
  width : Nat
  height : Nat
  mode : String
deriving DecidableEq, Inhabited

/-- The rounding helper inside the library's bounded resize: of the floor and
the ceiling of `number`, pick the one minimising `key` (a tie goes to the
floor, the first argument of the minimum), then clamp to at least 1. -/
def round_aspect (number : ℚ) (key : ℤ → ℚ) : ℤ :=
  max (if key ⌊number⌋ ≤ key ⌈number⌉ then ⌊number⌋ else ⌈number⌉) 1

/-- Size computation of `img.thumbnail((300, 300))`: an image already fitting
the 300×300 box is left unchanged; otherwise the dominant dimension is set to
300 and the other is scaled by the aspect ratio, rounded to a neighbouring
integer and clamped to at least 1. -/
def thumbnailSize (w h : Nat) : Nat × Nat :=
  if 300 ≥ w ∧ 300 ≥ h then (w, h)
  else
    let aspect : ℚ := (w : ℚ) / (h : ℚ)
    if (300 : ℚ) / 300 ≥ aspect then
      ((round_aspect (300 * aspect) (fun n => |aspect - (n : ℚ) / 300|)).toNat, 300)
    else
      (300, (round_aspect (300 / aspect)
        (fun n => if n = 0 then 0 else |aspect - (300 : ℚ) / (n : ℚ)|)).toNat)

/-- `img.thumbnail((300, 300))`: in-place bounded resize. The color mode is
preserved by the library's resize. -/
def thumbnail (img : PILImage) : PILImage :=
  { img with
    width := (thumbnailSize img.width img.height).1
    height := (thumbnailSize img.width img.height).2 }

theorem round_aspect_cases (t : ℚ) (key : ℤ → ℚ) :
    round_aspect t key = max ⌊t⌋ 1 ∨ round_aspect t key = max ⌈t⌉ 1 := by
  unfold round_aspect
  split
  · exact Or.inl rfl
  · exact Or.inr rfl

/-- The rounded, clamped scaled dimension lies in `[1, 300]` and is within one
unit of the exact aspect-preserving value `t`, whenever `0 < t ≤ 300`. -/
theorem round_aspect_bounds (t : ℚ) (key : ℤ → ℚ) (ht : 0 < t) (hle : t ≤ 300) :
    1 ≤ round_aspect t key ∧ round_aspect t key ≤ 300 ∧
      |((round_aspect t key : ℤ) : ℚ) - t| ≤ 1 := by
  have hfl : (⌊t⌋ : ℚ) ≤ t := Int.floor_le t
  have hfl' : t < (⌊t⌋ : ℚ) + 1 := Int.lt_floor_add_one t
  have hcl : t ≤ (⌈t⌉ : ℚ) := Int.le_ceil t
  have hcl' : (⌈t⌉ : ℚ) < t + 1 := Int.ceil_lt_add_one t
  have hflle : ⌊t⌋ ≤ (300 : ℤ) := by
    have := Int.floor_le_floor hle
    simpa using this
  have hclle : ⌈t⌉ ≤ (300 : ℤ) := by
    have := Int.ceil_le_ceil hle
    simpa using this
  have hcpos : 1 ≤ ⌈t⌉ := by
    have : (0 : ℤ) < ⌈t⌉ := Int.ceil_pos.mpr ht
    omega
  rcases round_aspect_cases t key with hcase | hcase <;> rw [hcase]
  · refine ⟨le_max_right _ _, max_le hflle (by norm_num), ?_⟩
    by_cases hge : 1 ≤ ⌊t⌋
    · rw [max_eq_left hge]
      rw [abs_le]
      constructor <;> linarith
    · have h0 : ⌊t⌋ ≤ 0 := by omega
      rw [max_eq_right (by omega)]
      have ht1 : t < 1 := by
        have : (⌊t⌋ : ℚ) ≤ 0 := by exact_mod_cast h0
        linarith
      rw [abs_le]
      constructor <;> push_cast <;> linarith
  · rw [max_eq_left hcpos]
    refine ⟨hcpos, hclle, ?_⟩
    rw [abs_le]
    constructor <;> linarith

/-- Core geometry of the bounded resize: for a positive-dimension input, the
output fits the 300×300 box and the cross-product form of the aspect ratio is
preserved up to one rounding unit in the scaled dimension. -/
theorem thumbnailSize_spec (w h : Nat) (hw : 0 < w) (hh : 0 < h) :
    (thumbnailSize w h).1 ≤ 300 ∧ (thumbnailSize w h).2 ≤ 300 ∧
      |((thumbnailSize w h).1 : ℤ) * h - ((thumbnailSize w h).2 : ℤ) * w| ≤ max w h := by
  have hwQ : (0 : ℚ) < (w : ℚ) := by exact_mod_cast hw
  have hhQ : (0 : ℚ) < (h : ℚ) := by exact_mod_cast hh
  unfold thumbnailSize
  split
  · rename_i hfit
    refine ⟨by omega, by omega, by simp [mul_comm]⟩
  · rename_i hnofit
    set aspect : ℚ := (w : ℚ) / (h : ℚ) with haspect
    have haspect_pos : 0 < aspect := div_pos hwQ hhQ
    by_cases hbr : (300 : ℚ) / 300 ≥ aspect
    · rw [if_pos hbr]
      have ha1 : aspect ≤ 1 := by
        have : (300 : ℚ) / 300 = 1 := by norm_num
        linarith [hbr, this ▸ hbr]
      have hwh : w ≤ h := by
        have := (div_le_one hhQ).mp (haspect ▸ ha1)
        exact_mod_cast this
      set t : ℚ := 300 * aspect with htdef
      have htpos : 0 < t := by positivity
      have htle : t ≤ 300 := by nlinarith
      obtain ⟨h1, h300, hnear⟩ := round_aspect_bounds t (fun n => |aspect - (n : ℚ) / 300|) htpos htle
      set c : ℤ := round_aspect t (fun n => |aspect - (n : ℚ) / 300|) with hcdef
      have hcnn : (0 : ℤ) ≤ c := by omega
      have htn : (c.toNat : ℤ) = c := Int.toNat_of_nonneg hcnn
      refine ⟨?_, by norm_num, ?_⟩
      · have : (c.toNat : ℤ) ≤ 300 := by omega
        exact_mod_cast this
      · have hmax : max w h = h := max_eq_right hwh
        rw [hmax]
        have hkey : |((c.toNat : ℤ) : ℚ) * h - 300 * w| ≤ (h : ℚ) := by
          have hround : |((c.toNat : ℤ) : ℚ) - t| ≤ 1 := by rw [htn]; exact hnear
          have hexp : ((c.toNat : ℤ) : ℚ) * h - 300 * w = (((c.toNat : ℤ) : ℚ) - t) * h := by
            rw [htdef, haspect]
            field_simp
          rw [hexp, abs_mul, abs_of_pos hhQ]
          calc |((c.toNat : ℤ) : ℚ) - t| * h ≤ 1 * h := by
                exact mul_le_mul_of_nonneg_right hround (le_of_lt hhQ)
            _ = (h : ℚ) := one_mul _
        have : |((c.toNat : ℤ) : ℚ) * (h : ℚ) - 300 * (w : ℚ)| ≤ ((h : ℤ) : ℚ) := by
          push_cast
          push_cast at hkey
          exact hkey
        have hfin : |(c.toNat : ℤ) * (h : ℤ) - 300 * (w : ℤ)| ≤ (h : ℤ) := by
          exact_mod_cast this
        simpa [mul_comm] using hfin
    · rw [if_neg hbr]
      have ha1 : 1 < aspect := by
        have h300 : (300 : ℚ) / 300 = 1 := by norm_num
        rw [h300] at hbr
        linarith [not_le.mp hbr]
      have hwh : h ≤ w := by
        have : (h : ℚ) ≤ (w : ℚ) := by
          have := (one_lt_div hhQ).mp (haspect ▸ ha1)
          linarith
        exact_mod_cast this
      set t : ℚ := 300 / aspect with htdef
      have htpos : 0 < t := by positivity
      have htle : t ≤ 300 := by
        rw [htdef]
        calc (300 : ℚ) / aspect ≤ 300 / 1 := by
              apply div_le_div_of_nonneg_left (by norm_num) (by norm_num) (le_of_lt ha1)
          _ = 300 := by norm_num
      obtain ⟨h1, h300, hnear⟩ := round_aspect_bounds t
        (fun n => if n = 0 then 0 else |aspect - (300 : ℚ) / (n : ℚ)|) htpos htle
      set c : ℤ := round_aspect t (fun n => if n = 0 then 0 else |aspect - (300 : ℚ) / (n : ℚ)|)
        with hcdef
      have hcnn : (0 : ℤ) ≤ c := by omega
      have htn : (c.toNat : ℤ) = c := Int.toNat_of_nonneg hcnn
      refine ⟨by norm_num, ?_, ?_⟩
      · have : (c.toNat : ℤ) ≤ 300 := by omega
        exact_mod_cast this
      · have hmax : max w h = w := max_eq_left hwh
        rw [hmax]
        have hkey : |(300 : ℚ) * h - ((c.toNat : ℤ) : ℚ) * w| ≤ (w : ℚ) := by
          have hround : |((c.toNat : ℤ) : ℚ) - t| ≤ 1 := by rw [htn]; exact hnear
          have hexp : (300 : ℚ) * h - ((c.toNat : ℤ) : ℚ) * w = (t - ((c.toNat : ℤ) : ℚ)) * w := by
            rw [htdef, haspect]
            field_simp
            ring
          rw [hexp, abs_mul, abs_of_pos hwQ, abs_sub_comm]
          calc |((c.toNat : ℤ) : ℚ) - t| * w ≤ 1 * w := by
                exact mul_le_mul_of_nonneg_right hround (le_of_lt hwQ)
            _ = (w : ℚ) := one_mul _
        have : |(300 : ℚ) * (h : ℚ) - ((c.toNat : ℤ) : ℚ) * (w : ℚ)| ≤ ((w : ℤ) : ℚ) := by
          push_cast
          push_cast at hkey
          exact hkey
        have hfin : |(300 : ℤ) * (h : ℤ) - (c.toNat : ℤ) * (w : ℤ)| ≤ (w : ℤ) := by
          exact_mod_cast this
        simpa [mul_comm] using hfin

/-- The modes the JPEG encoder of the imaging library can write directly (its
raw-mode table); `img.save(buffer, 'JPEG')` raises for any other mode, for
example "RGBA" or "P". -/
def jpegRawModes : List String := ["1", "L", "RGB", "RGBX", "CMYK", "YCbCr"]

/-- `os.path.basename`: the final path segment of a key, i.e. everything after
the last `/` (the whole string when it contains no `/`). -/
def basename (s : String) : String :=
  (s.splitOn "/").getLastD ""

/-- A wall-clock datetime as returned by `datetime.utcnow()`: a naive UTC
datetime with microsecond resolution. -/
structure DateTime where
  year : Nat
  month : Nat
  day : Nat
  hour : Nat
  minute : Nat
  second : Nat
  microsecond : Nat
deriving DecidableEq, Inhabited

/-- Field ranges of a real datetime value (the invariants the datetime library
maintains for `utcnow()` results). -/
def DateTime.Valid (d : DateTime) : Prop :=
  1 ≤ d.year ∧ d.year ≤ 9999 ∧ 1 ≤ d.month ∧ d.month ≤ 12 ∧ 1 ≤ d.day ∧ d.day ≤ 31 ∧
    d.hour ≤ 23 ∧ d.minute ≤ 59 ∧ d.second ≤ 59 ∧ d.microsecond ≤ 999999

instance (d : DateTime) : Decidable d.Valid := by
  unfold DateTime.Valid
  infer_instance

/-- Mixed-radix encoding of a datetime; on valid datetimes it is strictly
monotone in chronological order, so it serves as the comparison key. -/
def DateTime.key (d : DateTime) : Nat :=
  (((((d.year * 13 + d.month) * 32 + d.day) * 24 + d.hour) * 60 + d.minute) * 60 + d.second)
    * 1000000 + d.microsecond

/-- The decimal digit character for `n % 10`. -/
def digitChar (n : Nat) : Char := Char.ofNat (48 + n % 10)

/-- `datetime.isoformat()` on a naive datetime: fixed-width
`YYYY-MM-DDTHH:MM:SS`, with `.ffffff` appended exactly when the microsecond
field is nonzero. Rendering is by fixed-width decimal digits, which agrees
with the library for in-range field values. -/
def isoformat (d : DateTime) : String :=
  String.mk ([digitChar (d.year / 1000), digitChar (d.year / 100), digitChar (d.year / 10),
    digitChar d.year, '-', digitChar (d.month / 10), digitChar d.month, '-',
    digitChar (d.day / 10), digitChar d.day, 'T', digitChar (d.hour / 10), digitChar d.hour,
    ':', digitChar (d.minute / 10), digitChar d.minute, ':', digitChar (d.second / 10),
    digitChar d.second] ++
    (if d.microsecond = 0 then [] else
      ['.', digitChar (d.microsecond / 100000), digitChar (d.microsecond / 10000),
       digitChar (d.microsecond / 1000), digitChar (d.microsecond / 100),
       digitChar (d.microsecond / 10), digitChar d.microsecond]))

/-- Format check for an ISO-8601 extended combined date-and-time string
without offset: `YYYY-MM-DDTHH:MM:SS` optionally followed by `.ffffff`. -/
def isISO8601 (s : String) : Bool :=
  match s.toList with
  | [y1, y2, y3, y4, p1, m1, m2, p2, d1, d2, tt, h1, h2, q1, n1, n2, q2, s1, s2] =>
    [y1, y2, y3, y4, m1, m2, d1, d2, h1, h2, n1, n2, s1, s2].all Char.isDigit &&
      (p1 == '-') && (p2 == '-') && (tt == 'T') && (q1 == ':') && (q2 == ':')
  | [y1, y2, y3, y4, p1, m1, m2, p2, d1, d2, tt, h1, h2, q1, n1, n2, q2, s1, s2,
     dot, u1, u2, u3, u4, u5, u6] =>
    [y1, y2, y3, y4, m1, m2, d1, d2, h1, h2, n1, n2, s1, s2,
     u1, u2, u3, u4, u5, u6].all Char.isDigit &&
      (p1 == '-') && (p2 == '-') && (tt == 'T') && (q1 == ':') && (q2 == ':') && (dot == '.')
  | _ => false

/-- The environment configuration read by the handler module. -/
structure Env where
  SOURCE_BUCKET : String
  DEST_BUCKET : String
  DDB_TABLE : String
deriving DecidableEq

/-- The `record['s3']['object']` part of an S3 change notification record. -/
structure S3ObjectInfo where
  key : String
deriving DecidableEq

/-- The `record['s3']` part of an S3 change notification record. -/
structure S3Info where
  object : S3ObjectInfo
deriving DecidableEq

/-- One change record in an S3 event. -/
structure EventRecord where
  s3 : S3Info
deriving DecidableEq

/-- The lambda event: `event['Records']` is the notification batch. -/
structure Event where
  Records : List EventRecord
deriving DecidableEq

/-- The source key of an event record, as the loop extracts it. -/
def EventRecord.key (r : EventRecord) : String := r.s3.object.key

/-- What the source bucket holds under a key: nothing (`get_object` raises),
bytes that are not a decodable image (`Image.open` raises), or a decodable
image. -/
inductive SourceVal where
  | missing
  | undecodable
  | image (img : PILImage)
deriving DecidableEq

/-- One object as uploaded to the destination bucket by `put_object`. -/
structure DestObject where
  bucket : String
  key : String
  body : PILImage
  contentType : String
deriving DecidableEq

/-- One metadata item as written by `table.put_item`, with exactly the
attributes the handler supplies. -/
structure Item where
  image_id : String
  original_key : String
  resized_key : String
  upload_time : String
  source_bucket : String
  dest_bucket : String
deriving DecidableEq

/-- The failure modes of one record's processing: `get_object` on an absent
or unreadable key, `Image.open` on undecodable bytes, `img.save` on a mode
the JPEG encoder rejects, and failures of the two store writes. -/
inductive PipelineError where
  | sourceNotFound (key : String)
  | decodeError (key : String)
  | jpegEncodeError (mode : String)
  | writeError
  | metadataWriteError
deriving DecidableEq

/-- The world the handler acts on: the source bucket contents, the UUID
source and UTC clock (as streams indexed by how many values were drawn so
far), fault models for the two store writes (indexed by call count), and the
observable effect logs (source reads attempted, destination uploads,
metadata items, in call order). -/
structure World where
  source : String → SourceVal
  uuidSeq : Nat → String
  clock : Nat → DateTime
  s3PutFault : Nat → Bool
  ddbFault : Nat → Bool
  uuidCount : Nat
  clockCount : Nat
  s3PutCalls : Nat
  ddbCalls : Nat
  reads : List String
  destPuts : List DestObject
  metaItems : List Item

/-- The body of the per-record loop of `lambda_handler`, in source order:
draw a UUID, `get_object` (logged as a read attempt, raising on a missing
key), decode, `thumbnail((300, 300))`, JPEG-encode (raising on an
unsupported mode), `put_object` to `resized/<basename(key)>` with content
type `image/jpeg`, then `put_item` with the metadata attributes, taking
`utcnow()` while building the item. Returns the world reflecting every
effect performed up to the point of return, and the error if one was
raised. -/
def processRecord (env : Env) (w : World) (key : String) : World × Option PipelineError :=
  let image_id := w.uuidSeq w.uuidCount
  let w1 := { w with uuidCount := w.uuidCount + 1, reads := w.reads ++ [key] }
  match w1.source key with
  | SourceVal.missing => (w1, some (PipelineError.sourceNotFound key))
  | SourceVal.undecodable => (w1, some (PipelineError.decodeError key))
  | SourceVal.image img =>
    let resized := thumbnail img
    if resized.mode ∈ jpegRawModes then
      let resized_key := "resized/" ++ basename key
      if w1.s3PutFault w1.s3PutCalls then
        ({ w1 with s3PutCalls := w1.s3PutCalls + 1 }, some PipelineError.writeError)
      else
        let obj : DestObject := { bucket := env.DEST_BUCKET, key := resized_key,
                                  body := resized, contentType := "image/jpeg" }
        let w2 := { w1 with s3PutCalls := w1.s3PutCalls + 1,
                            destPuts := w1.destPuts ++ [obj] }
        let upload_time := isoformat (w2.clock w2.clockCount)
        let w3 := { w2 with clockCount := w2.clockCount + 1 }
        let item : Item := { image_id := image_id, original_key := key,
                             resized_key := resized_key, upload_time := upload_time,
                             source_bucket := env.SOURCE_BUCKET,
                             dest_bucket := env.DEST_BUCKET }
        if w3.ddbFault w3.ddbCalls then
          ({ w3 with ddbCalls := w3.ddbCalls + 1 }, some PipelineError.metadataWriteError)
        else
          ({ w3 with ddbCalls := w3.ddbCalls + 1, metaItems := w3.metaItems ++ [item] }, none)
    else (w1, some (PipelineError.jpegEncodeError resized.mode))

/-- The `for record in event['Records']` loop: records are processed in
order; the first raised error aborts the remaining records and propagates. -/
def processRecords (env : Env) : World → List EventRecord → World × Option PipelineError
  | w, [] => (w, none)
  | w, r :: rs =>
    match processRecord env w r.key with
    | (w1, none) => processRecords env w1 rs
    | (w1, some e) => (w1, some e)

/-- The handler's return payload. -/
structure LambdaResult where
  statusCode : Nat
  body : String
deriving DecidableEq

/-- `lambda_handler(event, context)`: run the loop; on completion return the
fixed success payload, otherwise let the error propagate. -/
def lambda_handler (env : Env) (w : World) (event : Event) :
    World × Except PipelineError LambdaResult :=
  match processRecords env w event.Records with
  | (w1, none) =>
    (w1, Except.ok { statusCode := 200, body := "Image resized and metadata stored successfully." })
  | (w1, some e) => (w1, Except.error e)

/-- The image stored under a source value, defaulting on non-images (only
used where the value is known to be an image). -/
def srcImage (v : SourceVal) : PILImage :=
  match v with
  | SourceVal.image img => img
  | _ => default

/-- The destination object a successful record with the given source key
uploads. -/
def mkDest (env : Env) (source : String → SourceVal) (key : String) : DestObject :=
  { bucket := env.DEST_BUCKET, key := "resized/" ++ basename key,
              body := thumbnail (srcImage (source key)), contentType := "image/jpeg" }

/-- The metadata item a successful record writes, when the record draws the
`u`-th UUID and the `c`-th clock reading. -/
def mkItem (env : Env) (uuidSeq : Nat → String) (clock : Nat → DateTime) (u c : Nat)
    (key : String) : Item :=
  { image_id := uuidSeq u, original_key := key,
              resized_key := "resized/" ++ basename key,
              upload_time := isoformat (clock c),
              source_bucket := env.SOURCE_BUCKET, dest_bucket := env.DEST_BUCKET }

/-- The destination objects a fully successful batch uploads, in order. -/
def expectedDests (env : Env) (source : String → SourceVal) (keys : List String) :
    List DestObject :=
  keys.map (mkDest env source)

/-- The metadata items a fully successful batch writes, in order, starting
from UUID index `u` and clock index `c`. -/
def expectedItems (env : Env) (uuidSeq : Nat → String) (clock : Nat → DateTime) :
    Nat → Nat → List String → List Item
  | _, _, [] => []
  | u, c, k :: ks => mkItem env uuidSeq clock u c k :: expectedItems env uuidSeq clock (u + 1) (c + 1) ks

/-- The world after one successful record: one UUID and one clock reading
drawn, one read attempt, one upload, one metadata item, one call to each
store client. -/
def stepWorld (env : Env) (w : World) (key : String) : World :=
  { w with uuidCount := w.uuidCount + 1, clockCount := w.clockCount + 1,
           s3PutCalls := w.s3PutCalls + 1, ddbCalls := w.ddbCalls + 1,
           reads := w.reads ++ [key],
           destPuts := w.destPuts ++ [mkDest env w.source key],
           metaItems := w.metaItems ++
             [mkItem env w.uuidSeq w.clock w.uuidCount w.clockCount key] }

/-- The world after a fully successful batch over the given keys. -/
def runWorld (env : Env) (w : World) (keys : List String) : World :=
  { w with uuidCount := w.uuidCount + keys.length, clockCount := w.clockCount + keys.length,
           s3PutCalls := w.s3PutCalls + keys.length, ddbCalls := w.ddbCalls + keys.length,
           reads := w.reads ++ keys,
           destPuts := w.destPuts ++ expectedDests env w.source keys,
           metaItems := w.metaItems ++
             expectedItems env w.uuidSeq w.clock w.uuidCount w.clockCount keys }

theorem processRecord_ok_char (env : Env) (w : World) (key : String)
    (h : (processRecord env w key).2 = none) :
    (∃ img, w.source key = SourceVal.image img ∧ (thumbnail img).mode ∈ jpegRawModes) ∧
      w.s3PutFault w.s3PutCalls = false ∧ w.ddbFault w.ddbCalls = false ∧
      (processRecord env w key).1 = stepWorld env w key := by
  cases hsv : w.source key with
  | missing => simp [processRecord, hsv] at h
  | undecodable => simp [processRecord, hsv] at h
  | image img =>
    by_cases hmode : (thumbnail img).mode ∈ jpegRawModes
    · by_cases hf1 : w.s3PutFault w.s3PutCalls = true
      · simp [processRecord, hsv, hmode, hf1] at h
      · have hf1' : w.s3PutFault w.s3PutCalls = false := by
          exact Bool.not_eq_true _ ▸ (Bool.eq_false_iff.mpr hf1)
        by_cases hf2 : w.ddbFault w.ddbCalls = true
        · simp [processRecord, hsv, hmode, hf1', hf2] at h
        · have hf2' : w.ddbFault w.ddbCalls = false := by
            exact Bool.not_eq_true _ ▸ (Bool.eq_false_iff.mpr hf2)
          refine ⟨⟨img, rfl, hmode⟩, hf1', hf2', ?_⟩
          simp [processRecord, stepWorld, hsv, hmode, hf1', hf2', mkDest, mkItem, srcImage]
    · simp [processRecord, hsv, hmode] at h

theorem processRecord_err_char (env : Env) (w : World) (key : String) (e : PipelineError)
    (h : (processRecord env w key).2 = some e) :
    (processRecord env w key).1.metaItems = w.metaItems ∧
      (processRecord env w key).1.reads = w.reads ++ [key] ∧
      ((processRecord env w key).1.destPuts = w.destPuts ∨
        (processRecord env w key).1.destPuts = w.destPuts ++ [mkDest env w.source key]) := by
  cases hsv : w.source key with
  | missing => simp [processRecord, hsv]
  | undecodable => simp [processRecord, hsv]
  | image img =>
    by_cases hmode : (thumbnail img).mode ∈ jpegRawModes
    · by_cases hf1 : w.s3PutFault w.s3PutCalls = true
      · simp [processRecord, hsv, hmode, hf1]
      · have hf1' : w.s3PutFault w.s3PutCalls = false := by
          exact Bool.not_eq_true _ ▸ (Bool.eq_false_iff.mpr hf1)
        by_cases hf2 : w.ddbFault w.ddbCalls = true
        · simp [processRecord, hsv, hmode, hf1', hf2, mkDest, srcImage]
        · have hf2' : w.ddbFault w.ddbCalls = false := by
            exact Bool.not_eq_true _ ▸ (Bool.eq_false_iff.mpr hf2)
          simp [processRecord, hsv, hmode, hf1', hf2'] at h
    · simp [processRecord, hsv, hmode]

/-- The per-record step never changes the static parts of the world (bucket
contents, streams, fault models). -/
theorem processRecord_static (env : Env) (w : World) (key : String) :
    (processRecord env w key).1.source = w.source ∧
      (processRecord env w key).1.uuidSeq = w.uuidSeq ∧
      (processRecord env w key).1.clock = w.clock ∧
      (processRecord env w key).1.s3PutFault = w.s3PutFault ∧
      (processRecord env w key).1.ddbFault = w.ddbFault := by
  cases hsv : w.source key with
  | missing => simp [processRecord, hsv]
  | undecodable => simp [processRecord, hsv]
  | image img =>
    by_cases hmode : (thumbnail img).mode ∈ jpegRawModes
    · by_cases hf1 : w.s3PutFault w.s3PutCalls = true
      · simp [processRecord, hsv, hmode, hf1]
      · have hf1' : w.s3PutFault w.s3PutCalls = false := by
          exact Bool.not_eq_true _ ▸ (Bool.eq_false_iff.mpr hf1)
        by_cases hf2 : w.ddbFault w.ddbCalls = true
        · simp [processRecord, hsv, hmode, hf1', hf2]
        · have hf2' : w.ddbFault w.ddbCalls = false := by
            exact Bool.not_eq_true _ ▸ (Bool.eq_false_iff.mpr hf2)
          simp [processRecord, hsv, hmode, hf1', hf2']
    · simp [processRecord, hsv, hmode]

theorem processRecords_cons_of_ok (env : Env) (w w1 : World) (r : EventRecord)
    (rs : List EventRecord) (h : processRecord env w r.key = (w1, none)) :
    processRecords env w (r :: rs) = processRecords env w1 rs := by
  simp [processRecords, h]

theorem processRecords_cons_of_err (env : Env) (w w1 : World) (r : EventRecord)
    (rs : List EventRecord) (e : PipelineError)
    (h : processRecord env w r.key = (w1, some e)) :
    processRecords env w (r :: rs) = (w1, some e) := by
  simp [processRecords, h]

theorem runWorld_cons (env : Env) (w : World) (k : String) (keys : List String) :
    runWorld env (stepWorld env w k) keys = runWorld env w (k :: keys) := by
  cases w with
  | mk src us ck f1 f2 uc cc sc dc rd dp mi =>
    simp [runWorld, stepWorld, expectedDests, expectedItems, List.append_assoc,
      Nat.add_assoc, Nat.add_comm 1]

/-- A batch that raises nowhere drives the world to exactly `runWorld`: all
counters advance by the batch length and the three logs extend by the reads,
uploads and metadata items of the records in order. -/
theorem processRecords_ok_char (env : Env) :
    ∀ (rs : List EventRecord) (w : World), (processRecords env w rs).2 = none →
      (processRecords env w rs).1 = runWorld env w (rs.map EventRecord.key) := by
  intro rs
  induction rs with
  | nil =>
    intro w _h
    cases w
    simp [processRecords, runWorld, expectedDests, expectedItems]
  | cons r rs ih =>
    intro w h
    cases hp : processRecord env w r.key with
    | mk w1 res =>
      cases res with
      | none =>
        rw [processRecords_cons_of_ok env w w1 r rs hp] at h ⊢
        have hchar := processRecord_ok_char env w r.key (by rw [hp])
        rw [hp] at hchar
        have hw1 : w1 = stepWorld env w r.key := hchar.2.2.2
        rw [ih w1 h, hw1, runWorld_cons]
        simp
      | some e =>
        rw [processRecords_cons_of_err env w w1 r rs e hp] at h
        simp at h

/-- In a batch that raises nowhere, every record's source key held a
decodable image whose resized mode the JPEG encoder accepts. -/
theorem processRecords_ok_sources (env : Env) :
    ∀ (rs : List EventRecord) (w : World), (processRecords env w rs).2 = none →
      ∀ r ∈ rs, ∃ img, w.source r.key = SourceVal.image img ∧
        (thumbnail img).mode ∈ jpegRawModes := by
  intro rs
  induction rs with
  | nil => intro w _h r hr; cases hr
  | cons r0 rs ih =>
    intro w h r hr
    cases hp : processRecord env w r0.key with
    | mk w1 res =>
      cases res with
      | none =>
        rw [processRecords_cons_of_ok env w w1 r0 rs hp] at h
        have hchar := processRecord_ok_char env w r0.key (by rw [hp])
        rw [hp] at hchar
        rcases List.mem_cons.mp hr with hr | hr
        · subst hr
          exact hchar.1
        · have hw1 : w1 = stepWorld env w r0.key := hchar.2.2.2
          have hsrc : w1.source = w.source := by rw [hw1]; simp [stepWorld]
          have := ih w1 h r hr
          rwa [hsrc] at this
      | some e =>
        rw [processRecords_cons_of_err env w w1 r0 rs e hp] at h
        simp at h

/-- A batch that raises does so at a first failing record `n`: the records
before `n` all succeeded, record `n` raised the propagated error, and the
final world is exactly the world left by record `n`'s partial processing. -/
theorem processRecords_err_decomp (env : Env) :
    ∀ (rs : List EventRecord) (w : World) (e : PipelineError),
      (processRecords env w rs).2 = some e →
      ∃ (n : Nat) (hn : n < rs.length),
        (processRecords env w (rs.take n)).2 = none ∧
        (processRecord env (processRecords env w (rs.take n)).1 (rs.get ⟨n, hn⟩).key).2
          = some e ∧
        (processRecords env w rs).1
          = (processRecord env (processRecords env w (rs.take n)).1 (rs.get ⟨n, hn⟩).key).1 := by
  intro rs
  induction rs with
  | nil => intro w e h; simp [processRecords] at h
  | cons r rs ih =>
    intro w e h
    cases hp : processRecord env w r.key with
    | mk w1 res =>
      cases res with
      | none =>
        rw [processRecords_cons_of_ok env w w1 r rs hp] at h
        obtain ⟨n, hn, hpre, hstep, hfin⟩ := ih w1 e h
        refine ⟨n + 1, by simpa using Nat.succ_lt_succ hn, ?_, ?_, ?_⟩
        · rw [List.take_succ_cons, processRecords_cons_of_ok env w w1 r (rs.take n) hp]
          exact hpre
        · rw [List.take_succ_cons, processRecords_cons_of_ok env w w1 r (rs.take n) hp]
          simpa using hstep
        · rw [List.take_succ_cons, processRecords_cons_of_ok env w w1 r (rs.take n) hp,
            processRecords_cons_of_ok env w w1 r rs hp]
          simpa using hfin
      | some e1 =>
        rw [processRecords_cons_of_err env w w1 r rs e1 hp] at h
        have he : e1 = e := by simpa using h
        subst he
        refine ⟨0, by simp, by simp [processRecords], ?_, ?_⟩
        · simpa [processRecords] using congrArg Prod.snd hp
        · rw [processRecords_cons_of_err env w w1 r rs e1 hp]
          simpa [processRecords] using (congrArg Prod.fst hp).symm

theorem expectedItems_length (env : Env) (S : Nat → String) (C : Nat → DateTime) :
    ∀ (keys : List String) (u c : Nat), (expectedItems env S C u c keys).length = keys.length := by
  intro keys
  induction keys with
  | nil => intro u c; rfl
  | cons k ks ih => intro u c; simp [expectedItems, ih]

theorem expectedItems_get? (env : Env) (S : Nat → String) (C : Nat → DateTime) :
    ∀ (keys : List String) (u c i : Nat),
      (expectedItems env S C u c keys).get? i
        = (keys.get? i).map (fun k => mkItem env S C (u + i) (c + i) k) := by
  intro keys
  induction keys with
  | nil => intro u c i; simp [expectedItems]
  | cons k ks ih =>
    intro u c i
    cases i with
    | zero => simp [expectedItems]
    | succ j =>
      have h1 : u + 1 + j = u + (j + 1) := by omega
      have h2 : c + 1 + j = c + (j + 1) := by omega
      simp only [expectedItems, List.get?_cons_succ, ih (u + 1) (c + 1) j, h1, h2]

/-- The stream of identifiers `S u, S (u+1), ...` of length `n`. -/
def idList (S : Nat → String) : Nat → Nat → List String
  | _, 0 => []
  | u, n + 1 => S u :: idList S (u + 1) n

theorem expectedItems_map_id (env : Env) (S : Nat → String) (C : Nat → DateTime) :
    ∀ (keys : List String) (u c : Nat),
      (expectedItems env S C u c keys).map Item.image_id = idList S u keys.length := by
  intro keys
  induction keys with
  | nil => intro u c; rfl
  | cons k ks ih => intro u c; simp [expectedItems, idList, mkItem, ih]

theorem mem_idList (S : Nat → String) :
    ∀ (n u : Nat) (x : String), x ∈ idList S u n → ∃ i, i < n ∧ x = S (u + i) := by
  intro n
  induction n with
  | zero => intro u x hx; cases hx
  | succ m ih =>
    intro u x hx
    rcases List.mem_cons.mp hx with hx | hx
    · exact ⟨0, by omega, by simpa using hx⟩
    · obtain ⟨i, hi, hxi⟩ := ih (u + 1) x hx
      exact ⟨i + 1, by omega, by rw [hxi]; congr 1; omega⟩

theorem idList_append (S : Nat → String) :
    ∀ (m n u : Nat), idList S u (m + n) = idList S u m ++ idList S (u + m) n := by
  intro m
  induction m with
  | zero => intro n u; simp [idList]
  | succ k ih =>
    intro n u
    have hmn : k + 1 + n = (k + n) + 1 := by omega
    rw [hmn]
    simp only [idList, ih, List.cons_append]
    have : u + 1 + k = u + (k + 1) := by omega
    rw [this]

theorem idList_pairwise (S : Nat → String) (hinj : Function.Injective S) :
    ∀ (n u : Nat), (idList S u n).Pairwise (fun a b => a ≠ b) := by
  intro n
  induction n with
  | zero => intro u; exact List.Pairwise.nil
  | succ m ih =>
    intro u
    refine List.Pairwise.cons ?_ (ih (u + 1))
    intro x hx heq
    obtain ⟨i, _hi, hxi⟩ := mem_idList S m (u + 1) x hx
    rw [hxi] at heq
    have := hinj heq
    omega

/-- The stream of clock readings `C c, C (c+1), ...` of length `n`. -/
def clockTimes (C : Nat → DateTime) : Nat → Nat → List DateTime
  | _, 0 => []
  | c, n + 1 => C c :: clockTimes C (c + 1) n

theorem expectedItems_map_time (env : Env) (S : Nat → String) (C : Nat → DateTime) :
    ∀ (keys : List String) (u c : Nat),
      (expectedItems env S C u c keys).map Item.upload_time
        = (clockTimes C c keys.length).map isoformat := by
  intro keys
  induction keys with
  | nil => intro u c; rfl
  | cons k ks ih => intro u c; simp [expectedItems, clockTimes, mkItem, ih]

theorem mem_clockTimes (C : Nat → DateTime) :
    ∀ (n c : Nat) (d : DateTime), d ∈ clockTimes C c n → ∃ i, i < n ∧ d = C (c + i) := by
  intro n
  induction n with
  | zero => intro c d hd; cases hd
  | succ m ih =>
    intro c d hd
    rcases List.mem_cons.mp hd with hd | hd
    · exact ⟨0, by omega, by simpa using hd⟩
    · obtain ⟨i, hi, hdi⟩ := ih (c + 1) d hd
      exact ⟨i + 1, by omega, by rw [hdi]; congr 1; omega⟩

theorem clockTimes_pairwise (C : Nat → DateTime)
    (hmono : ∀ m n, m ≤ n → (C m).key ≤ (C n).key) :
    ∀ (n c : Nat), (clockTimes C c n).Pairwise (fun a b => a.key ≤ b.key) := by
  intro n
  induction n with
  | zero => intro c; exact List.Pairwise.nil
  | succ m ih =>
    intro c
    refine List.Pairwise.cons ?_ (ih (c + 1))
    intro d hd
    obtain ⟨i, _hi, hdi⟩ := mem_clockTimes C m (c + 1) d hd
    rw [hdi]
    exact hmono c (c + 1 + i) (by omega)

theorem digitChar_isDigit (n : Nat) : (digitChar n).isDigit = true := by
  have h : n % 10 < 10 := Nat.mod_lt _ (by norm_num)
  unfold digitChar
  revert h
  generalize n % 10 = k
  intro h
  interval_cases k <;> decide

/-- Every rendered timestamp passes the ISO-8601 format check, with or
without a fractional-second part. -/
theorem isISO8601_isoformat (d : DateTime) : isISO8601 (isoformat d) = true := by
  unfold isoformat
  by_cases hms : d.microsecond = 0
  · rw [if_pos hms]
    simp [isISO8601, digitChar_isDigit]
  · rw [if_neg hms]
    simp [isISO8601, digitChar_isDigit]

theorem mem_expectedItems (env : Env) (S : Nat → String) (C : Nat → DateTime)
    (keys : List String) (u c : Nat) (it : Item) (hit : it ∈ expectedItems env S C u c keys) :
    ∃ i k, keys.get? i = some k ∧ it = mkItem env S C (u + i) (c + i) k := by
  obtain ⟨i, hi⟩ := List.mem_iff_get?.mp hit
  rw [expectedItems_get? env S C keys u c i] at hi
  cases hk : keys.get? i with
  | none => rw [hk] at hi; simp at hi
  | some k =>
    rw [hk] at hi
    simp only [Option.map] at hi
    exact ⟨i, k, hk, (Option.some.injEq _ _ ▸ hi).symm⟩

/-- The whole loop never changes the static parts of the world. -/
theorem processRecords_static (env : Env) :
    ∀ (rs : List EventRecord) (w : World),
      (processRecords env w rs).1.source = w.source ∧
        (processRecords env w rs).1.uuidSeq = w.uuidSeq ∧
        (processRecords env w rs).1.clock = w.clock ∧
        (processRecords env w rs).1.s3PutFault = w.s3PutFault ∧
        (processRecords env w rs).1.ddbFault = w.ddbFault := by
  intro rs
  induction rs with
  | nil => intro w; exact ⟨rfl, rfl, rfl, rfl, rfl⟩
  | cons r rs ih =>
    intro w
    cases hp : processRecord env w r.key with
    | mk w1 res =>
      have hst := processRecord_static env w r.key
      rw [hp] at hst
      cases res with
      | none =>
        rw [processRecords_cons_of_ok env w w1 r rs hp]
        have htl := ih w1
        exact ⟨htl.1.trans hst.1, htl.2.1.trans hst.2.1, htl.2.2.1.trans hst.2.2.1,
          htl.2.2.2.1.trans hst.2.2.2.1, htl.2.2.2.2.trans hst.2.2.2.2⟩
      | some e =>
        rw [processRecords_cons_of_err env w w1 r rs e hp]
        exact hst

/-- No run of the loop ever removes or rewrites an existing metadata item:
the metadata log only ever grows at the end. -/
theorem processRecords_meta_extend (env : Env) :
    ∀ (rs : List EventRecord) (w : World),
      ∃ tail, (processRecords env w rs).1.metaItems = w.metaItems ++ tail := by
  intro rs
  induction rs with
  | nil => intro w; exact ⟨[], by simp [processRecords]⟩
  | cons r rs ih =>
    intro w
    cases hp : processRecord env w r.key with
    | mk w1 res =>
      cases res with
      | none =>
        rw [processRecords_cons_of_ok env w w1 r rs hp]
        have hchar := processRecord_ok_char env w r.key (by rw [hp])
        rw [hp] at hchar
        have hw1 : w1 = stepWorld env w r.key := hchar.2.2.2
        obtain ⟨tail, htail⟩ := ih w1
        refine ⟨mkItem env w.uuidSeq w.clock w.uuidCount w.clockCount r.key :: tail, ?_⟩
        rw [htail, hw1]
        simp [stepWorld]
      | some e =>
        rw [processRecords_cons_of_err env w w1 r rs e hp]
        have herr := processRecord_err_char env w r.key e (by rw [hp])
        rw [hp] at herr
        exact ⟨[], by simpa using herr.1⟩

/-- Concrete configuration used by the witness runs. -/
def testEnv : Env :=
  { SOURCE_BUCKET := "source-bucket", DEST_BUCKET := "dest-bucket", DDB_TABLE := "image-metadata" }

/-- A fixed UTC datetime used by the witness worlds' clocks. -/
def testDT : DateTime :=
  { year := 2026, month := 10, day := 12, hour := 0, minute := 0, second := 0, microsecond := 0 }

/-- A concrete world: one decodable 1000×500 RGB image under
`photos/cat.png`, a deterministic injective UUID stream, a constant valid
clock and fault-free store clients. -/
def testWorld : World :=
  { source := fun k => if k = "photos/cat.png"
                       then SourceVal.image { width := 1000, height := 500, mode := "RGB" }
                       else SourceVal.missing,
    uuidSeq := fun n => String.mk (List.replicate n 'a'),
    clock := fun _ => testDT,
    s3PutFault := fun _ => false, ddbFault := fun _ => false,
    uuidCount := 0, clockCount := 0, s3PutCalls := 0, ddbCalls := 0,
    reads := [], destPuts := [], metaItems := [] }

/-- The change record naming `photos/cat.png`. -/
def testRecord : EventRecord :=
  { s3 := { object := { key := "photos/cat.png" } } }

/-- C1: for every valid decodable source image processed by the handler, the
resized raster uploaded to the destination fits the 300×300 box (longest
dimension at most 300) and preserves the source's aspect ratio up to one
integer-rounding unit in the scaled dimension (cross-product form). -/
theorem C1_resized_fits_box_and_preserves_aspect (env : Env) (w : World)
    (rs : List EventRecord) (h : (processRecords env w rs).2 = none)
    (hpos : ∀ k img, w.source k = SourceVal.image img → 0 < img.width ∧ 0 < img.height) :
    ∀ o ∈ (processRecords env w rs).1.destPuts.drop w.destPuts.length,
      ∃ img : PILImage, (∃ r ∈ rs, w.source r.key = SourceVal.image img) ∧
        o.body = thumbnail img ∧
        max o.body.width o.body.height ≤ 300 ∧
        |(o.body.width : ℤ) * img.height - (o.body.height : ℤ) * img.width|
          ≤ ((max img.width img.height : Nat) : ℤ) := by
  intro o ho
  rw [processRecords_ok_char env rs w h] at ho
  simp only [runWorld] at ho
  rw [List.drop_left] at ho
  simp only [expectedDests, List.mem_map] at ho
  obtain ⟨k, hk, rfl⟩ := ho
  obtain ⟨r, hr, rfl⟩ := hk
  obtain ⟨img, himg, _hmode⟩ := processRecords_ok_sources env rs w h r hr
  obtain ⟨hw, hh⟩ := hpos r.key img himg
  have hspec := thumbnailSize_spec img.width img.height hw hh
  refine ⟨img, ⟨r, hr, himg⟩, ?_, ?_, ?_⟩
  · simp [mkDest, himg, srcImage]
  · simp only [mkDest, himg, srcImage, thumbnail]
    exact max_le hspec.1 hspec.2.1
  · simp only [mkDest, himg, srcImage, thumbnail]
    exact hspec.2.2

/-- C1 witness: the spec's own scenario, a 1000×500 image under
`photos/cat.png`, run through one batch. -/
theorem C1_resized_fits_box_and_preserves_aspect_witness :
    (processRecords testEnv testWorld [testRecord]).2 = none ∧
      (∀ k img, testWorld.source k = SourceVal.image img → 0 < img.width ∧ 0 < img.height) ∧
      ∀ o ∈ (processRecords testEnv testWorld [testRecord]).1.destPuts.drop
          testWorld.destPuts.length,
        ∃ img : PILImage, (∃ r ∈ [testRecord], testWorld.source r.key = SourceVal.image img) ∧
          o.body = thumbnail img ∧
          max o.body.width o.body.height ≤ 300 ∧
          |(o.body.width : ℤ) * img.height - (o.body.height : ℤ) * img.width|
            ≤ ((max img.width img.height : Nat) : ℤ) := by
  have hsucc : (processRecords testEnv testWorld [testRecord]).2 = none := by decide
  have hpos : ∀ k img, testWorld.source k = SourceVal.image img →
      0 < img.width ∧ 0 < img.height := by
    intro k img
    simp only [testWorld]
    split
    · intro hk
      injection hk with h2
      subst h2
      decide
    · intro hk
      cases hk
  exact ⟨hsucc, hpos,
    C1_resized_fits_box_and_preserves_aspect testEnv testWorld [testRecord] hsucc hpos⟩

/-- C2: a source image strictly smaller than 300 in both dimensions passes
through the resize step unchanged — the bounded resize never upscales. -/
theorem C2_small_image_never_upscaled (img : PILImage)
    (hw : img.width < 300) (hh : img.height < 300) : thumbnail img = img := by
  cases img with
  | mk w h m =>
    dsimp at hw hh
    have hts : thumbnailSize w h = (w, h) := by
      unfold thumbnailSize
      exact if_pos ⟨by omega, by omega⟩
    simp [thumbnail, hts]

/-- C2 witness: a 100×50 image is returned unchanged. -/
theorem C2_small_image_never_upscaled_witness :
    (PILImage.mk 100 50 "RGB").width < 300 ∧ (PILImage.mk 100 50 "RGB").height < 300 ∧
      thumbnail (PILImage.mk 100 50 "RGB") = PILImage.mk 100 50 "RGB" :=
  ⟨by decide, by decide,
    C2_small_image_never_upscaled (PILImage.mk 100 50 "RGB") (by decide) (by decide)⟩

/-- C3: every destination upload of a processed record goes to the
destination bucket under key `resized/<basename(source key)>`, whatever the
path depth of the source key, and every metadata item records that same
destination key for its original key. -/
theorem C3_destination_key_is_resized_basename (env : Env) (w : World)
    (rs : List EventRecord) (h : (processRecords env w rs).2 = none) :
    ((processRecords env w rs).1.destPuts.drop w.destPuts.length
        = (rs.map EventRecord.key).map (mkDest env w.source)) ∧
      (∀ o ∈ (processRecords env w rs).1.destPuts.drop w.destPuts.length,
        ∃ r ∈ rs, o.key = "resized/" ++ basename r.key ∧ o.bucket = env.DEST_BUCKET) ∧
      (∀ it ∈ (processRecords env w rs).1.metaItems.drop w.metaItems.length,
        it.resized_key = "resized/" ++ basename it.original_key) := by
  have hm := processRecords_ok_char env rs w h
  refine ⟨?_, ?_, ?_⟩
  · rw [hm]
    simp only [runWorld]
    rw [List.drop_left]
    rfl
  · intro o ho
    rw [hm] at ho
    simp only [runWorld] at ho
    rw [List.drop_left] at ho
    simp only [expectedDests, List.mem_map] at ho
    obtain ⟨k, hk, rfl⟩ := ho
    obtain ⟨r, hr, rfl⟩ := hk
    exact ⟨r, hr, rfl, rfl⟩
  · intro it hit
    rw [hm] at hit
    simp only [runWorld] at hit
    rw [List.drop_left] at hit
    obtain ⟨i, k, _hik, rfl⟩ :=
      mem_expectedItems env w.uuidSeq w.clock (rs.map EventRecord.key)
        w.uuidCount w.clockCount it hit
    rfl

/-- C3 witness: the multi-segment key `photos/cat.png` yields destination
key `resized/cat.png`. -/
theorem C3_destination_key_is_resized_basename_witness :
    (processRecords testEnv testWorld [testRecord]).2 = none ∧
      (((processRecords testEnv testWorld [testRecord]).1.destPuts.drop
            testWorld.destPuts.length
          = ([testRecord].map EventRecord.key).map (mkDest testEnv testWorld.source)) ∧
        (∀ o ∈ (processRecords testEnv testWorld [testRecord]).1.destPuts.drop
            testWorld.destPuts.length,
          ∃ r ∈ [testRecord], o.key = "resized/" ++ basename r.key ∧
            o.bucket = testEnv.DEST_BUCKET) ∧
        (∀ it ∈ (processRecords testEnv testWorld [testRecord]).1.metaItems.drop
            testWorld.metaItems.length,
          it.resized_key = "resized/" ++ basename it.original_key)) := by
  have hsucc : (processRecords testEnv testWorld [testRecord]).2 = none := by decide
  exact ⟨hsucc, C3_destination_key_is_resized_basename testEnv testWorld [testRecord] hsucc⟩

/-- The change record naming a key absent from the witness world. -/
def missingRecord : EventRecord :=
  { s3 := { object := { key := "photos/missing.png" } } }

/-- C4: when record `n` of a batch raises at any stage, processing stops at
record `n`: the records before it all succeeded, no metadata is written for
record `n` or any later record, no destination upload happens for any record
after `n` (at most record `n`'s own upload is present and is not removed),
only records up to `n` were read, and the error propagates out of
`lambda_handler`. -/
theorem C4_first_failure_aborts_batch (env : Env) (w : World) (ev : Event)
    (e : PipelineError) (h : (processRecords env w ev.Records).2 = some e) :
    (lambda_handler env w ev).2 = Except.error e ∧
      ∃ (n : Nat) (hn : n < ev.Records.length),
        (processRecords env w (ev.Records.take n)).2 = none ∧
        (processRecord env (processRecords env w (ev.Records.take n)).1
            (ev.Records.get ⟨n, hn⟩).key).2 = some e ∧
        (processRecords env w ev.Records).1
          = (processRecord env (processRecords env w (ev.Records.take n)).1
              (ev.Records.get ⟨n, hn⟩).key).1 ∧
        (processRecords env w ev.Records).1.metaItems
          = (processRecords env w (ev.Records.take n)).1.metaItems ∧
        ((processRecords env w ev.Records).1.destPuts
            = (processRecords env w (ev.Records.take n)).1.destPuts ∨
          (processRecords env w ev.Records).1.destPuts
            = (processRecords env w (ev.Records.take n)).1.destPuts
                ++ [mkDest env w.source (ev.Records.get ⟨n, hn⟩).key]) ∧
        (processRecords env w ev.Records).1.reads
          = w.reads ++ (ev.Records.take n).map EventRecord.key
              ++ [(ev.Records.get ⟨n, hn⟩).key] := by
  have hdl : (lambda_handler env w ev).2 = Except.error e := by
    cases hpr : processRecords env w ev.Records with
    | mk w1 res =>
      rw [hpr] at h
      simp only at h
      subst h
      simp [lambda_handler, hpr]
  obtain ⟨n, hn, hpre, hstep, hfin⟩ := processRecords_err_decomp env ev.Records w e h
  have herr := processRecord_err_char env (processRecords env w (ev.Records.take n)).1
    (ev.Records.get ⟨n, hn⟩).key e hstep
  have hsrc : (processRecords env w (ev.Records.take n)).1.source = w.source :=
    (processRecords_static env (ev.Records.take n) w).1
  have hreads : (processRecords env w (ev.Records.take n)).1.reads
      = w.reads ++ (ev.Records.take n).map EventRecord.key := by
    rw [processRecords_ok_char env (ev.Records.take n) w hpre]
    simp [runWorld]
  refine ⟨hdl, n, hn, hpre, hstep, hfin, ?_, ?_, ?_⟩
  · rw [hfin]
    exact herr.1
  · rw [hfin]
    rcases herr.2.2 with hcase | hcase
    · exact Or.inl hcase
    · right
      rw [hcase, hsrc]
  · rw [hfin, herr.2.1, hreads, List.append_assoc]

/-- C4 witness: a batch whose second record names an absent key fails there,
and the first record's upload survives. -/
theorem C4_first_failure_aborts_batch_witness :
    (processRecords testEnv testWorld [testRecord, missingRecord]).2
        = some (PipelineError.sourceNotFound "photos/missing.png") ∧
      ((lambda_handler testEnv testWorld { Records := [testRecord, missingRecord] }).2
          = Except.error (PipelineError.sourceNotFound "photos/missing.png") ∧
        ∃ (n : Nat) (hn : n < [testRecord, missingRecord].length),
          (processRecords testEnv testWorld ([testRecord, missingRecord].take n)).2 = none ∧
          (processRecord testEnv
              (processRecords testEnv testWorld ([testRecord, missingRecord].take n)).1
              ([testRecord, missingRecord].get ⟨n, hn⟩).key).2
            = some (PipelineError.sourceNotFound "photos/missing.png") ∧
          (processRecords testEnv testWorld [testRecord, missingRecord]).1
            = (processRecord testEnv
                (processRecords testEnv testWorld ([testRecord, missingRecord].take n)).1
                ([testRecord, missingRecord].get ⟨n, hn⟩).key).1 ∧
          (processRecords testEnv testWorld [testRecord, missingRecord]).1.metaItems
            = (processRecords testEnv testWorld ([testRecord, missingRecord].take n)).1.metaItems ∧
          ((processRecords testEnv testWorld [testRecord, missingRecord]).1.destPuts
              = (processRecords testEnv testWorld ([testRecord, missingRecord].take n)).1.destPuts ∨
            (processRecords testEnv testWorld [testRecord, missingRecord]).1.destPuts
              = (processRecords testEnv testWorld ([testRecord, missingRecord].take n)).1.destPuts
                  ++ [mkDest testEnv testWorld.source
                        ([testRecord, missingRecord].get ⟨n, hn⟩).key]) ∧
          (processRecords testEnv testWorld [testRecord, missingRecord]).1.reads
            = testWorld.reads ++ ([testRecord, missingRecord].take n).map EventRecord.key
                ++ [([testRecord, missingRecord].get ⟨n, hn⟩).key]) := by
  have hsome : (processRecords testEnv testWorld [testRecord, missingRecord]).2
      = some (PipelineError.sourceNotFound "photos/missing.png") := by decide
  exact ⟨hsome, C4_first_failure_aborts_batch testEnv testWorld
    { Records := [testRecord, missingRecord] } (PipelineError.sourceNotFound "photos/missing.png")
    hsome⟩

/-- C5: a batch that raises nowhere makes the handler return exactly the
fixed success payload, independent of the batch's contents or size. -/
theorem C5_fixed_success_payload (env : Env) (w : World) (ev : Event)
    (h : (processRecords env w ev.Records).2 = none) :
    (lambda_handler env w ev).2 = Except.ok
      { statusCode := 200, body := "Image resized and metadata stored successfully." } := by
  cases hpr : processRecords env w ev.Records with
  | mk w1 res =>
    rw [hpr] at h
    simp only at h
    subst h
    simp [lambda_handler, hpr]

/-- C5 witness: a one-record batch returns the fixed payload. -/
theorem C5_fixed_success_payload_witness :
    (processRecords testEnv testWorld [testRecord]).2 = none ∧
      (lambda_handler testEnv testWorld { Records := [testRecord] }).2 = Except.ok
        { statusCode := 200, body := "Image resized and metadata stored successfully." } := by
  have hsucc : (processRecords testEnv testWorld [testRecord]).2 = none := by decide
  exact ⟨hsucc, C5_fixed_success_payload testEnv testWorld { Records := [testRecord] } hsucc⟩

/-- C6: every successfully processed record writes exactly one metadata
item, in record order, carrying exactly the generated identifier, the
original key, the resized key, the processing timestamp and the two bucket
identifiers; and no run of the pipeline ever updates or deletes an existing
metadata item. -/
theorem C6_exactly_one_metadata_item (env : Env) (w : World) (rs : List EventRecord)
    (h : (processRecords env w rs).2 = none) :
    ((processRecords env w rs).1.metaItems
        = w.metaItems ++ expectedItems env w.uuidSeq w.clock w.uuidCount w.clockCount
            (rs.map EventRecord.key)) ∧
      (expectedItems env w.uuidSeq w.clock w.uuidCount w.clockCount
          (rs.map EventRecord.key)).length = rs.length ∧
      (∀ i k, (rs.map EventRecord.key).get? i = some k →
        (expectedItems env w.uuidSeq w.clock w.uuidCount w.clockCount
            (rs.map EventRecord.key)).get? i
          = some (mkItem env w.uuidSeq w.clock (w.uuidCount + i) (w.clockCount + i) k)) ∧
      (∀ (w2 : World) (rs2 : List EventRecord), ∃ tail,
        (processRecords env w2 rs2).1.metaItems = w2.metaItems ++ tail) := by
  refine ⟨?_, ?_, ?_, ?_⟩
  · rw [processRecords_ok_char env rs w h]
    simp [runWorld]
  · rw [expectedItems_length]
    exact List.length_map rs EventRecord.key
  · intro i k hik
    rw [expectedItems_get? env w.uuidSeq w.clock (rs.map EventRecord.key)
      w.uuidCount w.clockCount i, hik]
    rfl
  · intro w2 rs2
    exact processRecords_meta_extend env rs2 w2

/-- C6 witness: one record writes exactly one metadata item with the
expected attribute values. -/
theorem C6_exactly_one_metadata_item_witness :
    (processRecords testEnv testWorld [testRecord]).2 = none ∧
      (((processRecords testEnv testWorld [testRecord]).1.metaItems
          = testWorld.metaItems ++ expectedItems testEnv testWorld.uuidSeq testWorld.clock
              testWorld.uuidCount testWorld.clockCount ([testRecord].map EventRecord.key)) ∧
        (expectedItems testEnv testWorld.uuidSeq testWorld.clock
            testWorld.uuidCount testWorld.clockCount
            ([testRecord].map EventRecord.key)).length = [testRecord].length ∧
        (∀ i k, ([testRecord].map EventRecord.key).get? i = some k →
          (expectedItems testEnv testWorld.uuidSeq testWorld.clock
              testWorld.uuidCount testWorld.clockCount
              ([testRecord].map EventRecord.key)).get? i
            = some (mkItem testEnv testWorld.uuidSeq testWorld.clock
                (testWorld.uuidCount + i) (testWorld.clockCount + i) k)) ∧
        (∀ (w2 : World) (rs2 : List EventRecord), ∃ tail,
          (processRecords testEnv w2 rs2).1.metaItems = w2.metaItems ++ tail)) := by
  have hsucc : (processRecords testEnv testWorld [testRecord]).2 = none := by decide
  exact ⟨hsucc, C6_exactly_one_metadata_item testEnv testWorld [testRecord] hsucc⟩

/-- C7: with an injective identifier stream, all metadata items written by
two consecutive successful invocations carry pairwise distinct identifiers,
whatever the keys (repeated keys included); each record appends a fresh item
rather than updating an existing one. -/
theorem C7_identifiers_pairwise_distinct (env : Env) (w : World)
    (rs1 rs2 : List EventRecord) (hinj : Function.Injective w.uuidSeq)
    (h1 : (processRecords env w rs1).2 = none)
    (h2 : (processRecords env (processRecords env w rs1).1 rs2).2 = none) :
    ∃ new1 new2 : List Item,
      (processRecords env w rs1).1.metaItems = w.metaItems ++ new1 ∧
      (processRecords env (processRecords env w rs1).1 rs2).1.metaItems
        = w.metaItems ++ new1 ++ new2 ∧
      new1.length = rs1.length ∧ new2.length = rs2.length ∧
      ((new1 ++ new2).map Item.image_id).Pairwise (fun a b => a ≠ b) := by
  have hm1 := processRecords_ok_char env rs1 w h1
  have hm2 := processRecords_ok_char env rs2 (processRecords env w rs1).1 h2
  have hus : (processRecords env w rs1).1.uuidSeq = w.uuidSeq := by
    rw [hm1]
    simp [runWorld]
  have hck : (processRecords env w rs1).1.clock = w.clock := by
    rw [hm1]
    simp [runWorld]
  have huc : (processRecords env w rs1).1.uuidCount = w.uuidCount + rs1.length := by
    rw [hm1]
    simp [runWorld]
  have hcc : (processRecords env w rs1).1.clockCount = w.clockCount + rs1.length := by
    rw [hm1]
    simp [runWorld]
  have hmi : (processRecords env w rs1).1.metaItems
      = w.metaItems ++ expectedItems env w.uuidSeq w.clock w.uuidCount w.clockCount
          (rs1.map EventRecord.key) := by
    rw [hm1]
    simp [runWorld]
  refine ⟨expectedItems env w.uuidSeq w.clock w.uuidCount w.clockCount
      (rs1.map EventRecord.key),
    expectedItems env w.uuidSeq w.clock (w.uuidCount + rs1.length)
      (w.clockCount + rs1.length) (rs2.map EventRecord.key), hmi, ?_, ?_, ?_, ?_⟩
  · rw [hm2]
    simp only [runWorld]
    rw [hus, hck, huc, hcc, hmi, List.append_assoc]
  · rw [expectedItems_length]
    exact List.length_map rs1 EventRecord.key
  · rw [expectedItems_length]
    exact List.length_map rs2 EventRecord.key
  · rw [List.map_append, expectedItems_map_id, expectedItems_map_id,
      List.length_map, List.length_map, ← idList_append]
    exact idList_pairwise w.uuidSeq hinj (rs1.length + rs2.length) w.uuidCount

/-- The witness world's UUID stream is injective: distinct draws give
strings of distinct lengths. -/
theorem testWorld_uuidSeq_injective : Function.Injective testWorld.uuidSeq := by
  intro a b hab
  have hd := congrArg String.data hab
  simp only [testWorld] at hd
  have hl := congrArg List.length hd
  simpa using hl

/-- C7 witness: a batch naming the same key twice followed by a second
invocation reprocessing it: three items, pairwise distinct identifiers. -/
theorem C7_identifiers_pairwise_distinct_witness :
    Function.Injective testWorld.uuidSeq ∧
      (processRecords testEnv testWorld [testRecord, testRecord]).2 = none ∧
      (processRecords testEnv
          (processRecords testEnv testWorld [testRecord, testRecord]).1 [testRecord]).2
        = none ∧
      ∃ new1 new2 : List Item,
        (processRecords testEnv testWorld [testRecord, testRecord]).1.metaItems
          = testWorld.metaItems ++ new1 ∧
        (processRecords testEnv
            (processRecords testEnv testWorld [testRecord, testRecord]).1
            [testRecord]).1.metaItems
          = testWorld.metaItems ++ new1 ++ new2 ∧
        new1.length = [testRecord, testRecord].length ∧
        new2.length = [testRecord].length ∧
        ((new1 ++ new2).map Item.image_id).Pairwise (fun a b => a ≠ b) := by
  have hinj := testWorld_uuidSeq_injective
  have h1 : (processRecords testEnv testWorld [testRecord, testRecord]).2 = none := by decide
  have h2 : (processRecords testEnv
      (processRecords testEnv testWorld [testRecord, testRecord]).1 [testRecord]).2
      = none := by decide
  exact ⟨hinj, h1, h2, C7_identifiers_pairwise_distinct testEnv testWorld
    [testRecord, testRecord] [testRecord] hinj h1 h2⟩

/-- C8: with a valid, monotone UTC clock, every metadata item written by a
successful batch carries an ISO-8601-formatted timestamp, the timestamps are
readings of the clock taken at processing time in record order, and they are
monotonically non-decreasing across the batch. -/
theorem C8_upload_times_iso8601_monotone (env : Env) (w : World) (rs : List EventRecord)
    (hvalid : ∀ n, (w.clock n).Valid)
    (hmono : ∀ m n, m ≤ n → (w.clock m).key ≤ (w.clock n).key)
    (h : (processRecords env w rs).2 = none) :
    ∃ ds : List DateTime,
      (((processRecords env w rs).1.metaItems.drop w.metaItems.length).map Item.upload_time
          = ds.map isoformat) ∧
        (∀ d ∈ ds, d.Valid) ∧
        (∀ it ∈ (processRecords env w rs).1.metaItems.drop w.metaItems.length,
          isISO8601 it.upload_time = true) ∧
        ds.Pairwise (fun a b => a.key ≤ b.key) := by
  have hm := processRecords_ok_char env rs w h
  have hdrop : (processRecords env w rs).1.metaItems.drop w.metaItems.length
      = expectedItems env w.uuidSeq w.clock w.uuidCount w.clockCount
          (rs.map EventRecord.key) := by
    rw [hm]
    simp only [runWorld]
    exact List.drop_left _ _
  refine ⟨clockTimes w.clock w.clockCount rs.length, ?_, ?_, ?_, ?_⟩
  · rw [hdrop, expectedItems_map_time]
    simp
  · intro d hd
    obtain ⟨i, _hi, rfl⟩ := mem_clockTimes w.clock rs.length w.clockCount d hd
    exact hvalid _
  · intro it hit
    rw [hdrop] at hit
    obtain ⟨i, k, _hik, rfl⟩ :=
      mem_expectedItems env w.uuidSeq w.clock (rs.map EventRecord.key)
        w.uuidCount w.clockCount it hit
    exact isISO8601_isoformat _
  · exact clockTimes_pairwise w.clock hmono rs.length w.clockCount

/-- C8 witness: two records under a constant valid clock. -/
theorem C8_upload_times_iso8601_monotone_witness :
    (∀ n, (testWorld.clock n).Valid) ∧
      (∀ m n, m ≤ n → (testWorld.clock m).key ≤ (testWorld.clock n).key) ∧
      (processRecords testEnv testWorld [testRecord, testRecord]).2 = none ∧
      ∃ ds : List DateTime,
        (((processRecords testEnv testWorld [testRecord, testRecord]).1.metaItems.drop
              testWorld.metaItems.length).map Item.upload_time
            = ds.map isoformat) ∧
          (∀ d ∈ ds, d.Valid) ∧
          (∀ it ∈ (processRecords testEnv testWorld
              [testRecord, testRecord]).1.metaItems.drop testWorld.metaItems.length,
            isISO8601 it.upload_time = true) ∧
          ds.Pairwise (fun a b => a.key ≤ b.key) := by
  have hvalid : ∀ n, (testWorld.clock n).Valid := by
    intro n
    show testDT.Valid
    decide
  have hmono : ∀ m n, m ≤ n → (testWorld.clock m).key ≤ (testWorld.clock n).key :=
    fun _ _ _ => le_refl _
  have hsucc : (processRecords testEnv testWorld [testRecord, testRecord]).2 = none := by
    decide
  exact ⟨hvalid, hmono, hsucc, C8_upload_times_iso8601_monotone testEnv testWorld
    [testRecord, testRecord] hvalid hmono hsucc⟩

/-- A world holding a decodable 400×400 image with an alpha channel (mode
"RGBA", as decoded from such a PNG) under `photos/dog.png`. -/
def rgbaWorld : World :=
  { testWorld with
      source := fun k => if k = "photos/dog.png"
                         then SourceVal.image { width := 400, height := 400, mode := "RGBA" }
                         else SourceVal.missing }

/-- The change record naming the RGBA image. -/
def dogRecord : EventRecord :=
  { s3 := { object := { key := "photos/dog.png" } } }

/-- C9: an existing, readable, decodable source image (an RGBA raster, as an
alpha-channel PNG decodes to) makes the JPEG encode step raise, failing the
record even though it satisfies the stated input precondition; no derived
object and no metadata item is written for it. -/
theorem C9_alpha_image_fails_jpeg_encode :
    (∃ img, rgbaWorld.source "photos/dog.png" = SourceVal.image img) ∧
      (lambda_handler testEnv rgbaWorld { Records := [dogRecord] }).2
        = Except.error (PipelineError.jpegEncodeError "RGBA") ∧
      (lambda_handler testEnv rgbaWorld { Records := [dogRecord] }).1.destPuts = [] ∧
      (lambda_handler testEnv rgbaWorld { Records := [dogRecord] }).1.metaItems = [] := by
  refine ⟨⟨{ width := 400, height := 400, mode := "RGBA" }, by decide⟩, ?_, ?_, ?_⟩
  · rfl
  · decide
  · decide

/-- C10: an empty batch leaves the world untouched — no source read, no
destination upload, no metadata write, no identifier or clock drawn — and
returns the fixed success payload. -/
theorem C10_empty_batch_is_pure_success (env : Env) (w : World) :
    lambda_handler env w { Records := [] }
      = (w, Except.ok { statusCode := 200,
                        body := "Image resized and metadata stored successfully." }) := rfl

end ImageResizer
